import Mathlib

/-!
# Verification of the local-ai-voice-chat client core

Shallow embedding of the client-side streaming audio/session coordinator of
the repository: the PCM16 sample codec, the application-state reducer
(`handleMessage` / `handleStatusUpdate` / `handleSendText` / `handleAudioChunk`
from `frontend/src/App.tsx`), the queued audio playback coordinator
(`useAudioStream` with queue, from the unnamed hook file), and the WebSocket
connection manager (`useWebSocket`).

Machine floats are modelled by rationals: every sample the browser produces is
a binary rational, the JavaScript double arithmetic performed on it by the
conversion loops (one multiply by 32767 or 32768, one divide by 32768, all on
float32 inputs) is exact, and the `Int16Array` element conversion is
truncation toward zero followed by a wrap into the 16-bit range.
-/

namespace VoiceChat

/-! ## PCM16 sample codec

From `useAudioStream.ts`, `startListening` capture callback:
  `const s = Math.max(-1, Math.min(1, inputData[i]));`
  `pcmData[i] = s < 0 ? s * 0x8000 : s * 0x7fff;`
and from `playAudioSegment`:
  `float32Array[i] = int16Array[i] / 32768;`
-/

/-- `Math.max(-1, Math.min(1, x))`. -/
def clampSample (x : ℚ) : ℚ := max (-1) (min 1 x)

/-- Truncation toward zero, as JavaScript `ToIntegerOrInfinity` performs on
assignment to an `Int16Array` element. -/
def truncQ (q : ℚ) : ℤ := if q < 0 then ⌈q⌉ else ⌊q⌋

/-- The wrap into signed 16-bit range that `Int16Array` element conversion
performs after truncation. -/
def int16wrap (n : ℤ) : ℤ := (n + 32768) % 65536 - 32768

/-- Float sample to PCM16: clamp, scale by `0x8000` when negative and by
`0x7fff` otherwise, convert to an `Int16Array` element. -/
def encodePCM16 (x : ℚ) : ℤ :=
  let s := clampSample x
  int16wrap (truncQ (if s < 0 then s * 32768 else s * 32767))

/-- PCM16 sample back to float: `int16Array[i] / 32768`. -/
def decodePCM16 (v : ℤ) : ℚ := (v : ℚ) / 32768

/-- Capture-side conversion of a whole buffer (the `onaudioprocess` loop). -/
def encodeBuffer (xs : List ℚ) : List ℤ := xs.map encodePCM16

/-- Playback-side conversion of a whole buffer (the `playAudioSegment` loop). -/
def decodeBuffer (vs : List ℤ) : List ℚ := vs.map decodePCM16

/-! ## Application state reducer

From `frontend/src/App.tsx`: the pieces of component state the inbound
message handlers touch, the `handleMessage` / `handleStatusUpdate` inbound
dispatchers, and the `handleSendText` / `handleAudioChunk` user-intent
handlers. `streamingContentRef` is the ref kept in sync with the
`streamingContent` state by the `useEffect` at the top of the component;
inbound WebSocket messages are delivered as separate tasks, so React commits
the state update and runs that effect between two consecutive messages —
`dispatchMessage` below models exactly that: run the handler, then sync the
ref. -/

inductive Role
  | user
  | assistant
deriving DecidableEq, Repr

structure Message where
  role : Role
  content : String
deriving DecidableEq, Repr

inductive AppPhase
  | idle
  | listening
  | transcribing
  | thinking
  | speaking
deriving DecidableEq, Repr

structure AppSt where
  phase : AppPhase
  messages : List Message
  streamingContent : String
  streamingContentRef : String
  isListening : Bool
  isListeningRef : Bool
  ollamaAvailable : Bool
deriving DecidableEq, Repr

/-- Inbound WebSocket frames, after JSON parsing (`WSMessage` in the code),
restricted to the variants `handleMessage` interprets. -/
inductive WSMsg
  | status (status : String)
  | transcription (text : String)
  | responseToken (token : String)
  | responseEnd
  | audio (audio : String) (sampleRate : Nat)
deriving DecidableEq, Repr

/-- `handleStatusUpdate` from App.tsx.  Note the `stopped` case only flushes
the accumulator (guarded by JavaScript string truthiness, i.e. non-empty);
it does not call `setState`. -/
def handleStatusUpdate (status : String) (st : AppSt) : AppSt :=
  if status = "ready" ∨ status = "listening" then
    if st.isListeningRef then { st with phase := .listening }
    else { st with phase := .idle }
  else if status = "transcribing" then { st with phase := .transcribing }
  else if status = "thinking" then { st with phase := .thinking }
  else if status = "speaking" then { st with phase := .speaking }
  else if status = "stopped" then
    if st.streamingContentRef ≠ "" then
      { st with
          messages := st.messages
            ++ [⟨.assistant, st.streamingContentRef ++ " [stopped]"⟩],
          streamingContent := "" }
    else st
  else if status = "history_cleared" then
    { st with messages := [], streamingContent := "" }
  else st

/-- `handleMessage` from App.tsx.  The `audio` case forwards the segment to
the audio coordinator (`playAudio`) and leaves the component state alone; the
`response_end` case reads the accumulator through the ref, per the code. -/
def handleMessage (msg : WSMsg) (st : AppSt) : AppSt :=
  match msg with
  | .status s => handleStatusUpdate s st
  | .transcription text =>
      { st with messages := st.messages ++ [⟨.user, text⟩] }
  | .responseToken t =>
      { st with streamingContent := st.streamingContent ++ t }
  | .responseEnd =>
      { st with
          messages := st.messages ++ [⟨.assistant, st.streamingContentRef⟩],
          streamingContent := "" }
  | .audio _ _ => st

/-- The `useEffect(() => { streamingContentRef.current = streamingContent })`
that keeps the ref in sync with the state. -/
def syncStreamingRef (st : AppSt) : AppSt :=
  { st with streamingContentRef := st.streamingContent }

/-- One inbound frame handled to quiescence: the handler runs, React commits
the state update and flushes the ref-sync effect before the next frame. -/
def dispatchMessage (msg : WSMsg) (st : AppSt) : AppSt :=
  syncStreamingRef (handleMessage msg st)

/-- A sequence of inbound frames handled in arrival order. -/
def dispatchAll (msgs : List WSMsg) (st : AppSt) : AppSt :=
  msgs.foldl (fun s m => dispatchMessage m s) st

/-- Concatenation of token payloads in arrival order. -/
def concatTokens : List String → String
  | [] => ""
  | t :: ts => t ++ concatTokens ts

/-- Outbound effects the user-intent handlers can issue. -/
inductive OutEv
  | stopCapture
  | sendText (text : String)
  | sendChunk (chunk : Nat)
deriving DecidableEq, Repr

/-- `handleSendText` from App.tsx: no-op when Ollama is unavailable; stops
capture first when listening; then sends the `text` command. -/
def handleSendText (text : String) (st : AppSt) : AppSt × List OutEv :=
  if !st.ollamaAvailable then (st, [])
  else if st.isListening then
    ({ st with isListening := false, isListeningRef := false },
     [OutEv.stopCapture, OutEv.sendText text])
  else (st, [OutEv.sendText text])

/-- `handleAudioChunk` from App.tsx: a captured chunk is forwarded to the
binary send only while the listening ref is set. -/
def handleAudioChunk (chunk : Nat) (st : AppSt) : List OutEv :=
  if st.isListeningRef then [OutEv.sendChunk chunk] else []

/-! ## Audio playback queue

From the queued variant of `useAudioStream` (the unnamed hook file):
`playAudio` pushes a segment and kicks `processAudioQueue`; the worker loop
shifts the head of `audioQueueRef`, awaits `playAudioSegment` on it, and keeps
going until the queue is empty; `clearAudioQueue` empties the queue, closes
and nulls the playback context and resets `isPlayingRef`.

The event-loop semantics is modelled as a transition system: `enqueue` runs
`playAudio` and, when it starts the worker, the synchronous prefix of the loop
up to its first `await`; `finish` is the resolution of the oldest pending
`playAudioSegment` promise, running the loop's next iteration up to its next
`await` (or its exit); `clear` runs `clearAudioQueue`.  A worker suspended at
an `await` is an entry of `workers` holding its segment and the sample rate of
the context it is playing through. -/

structure Segment where
  audio : String
  sampleRate : Nat
deriving DecidableEq, Repr

inductive PlayEv
  | start (s : Segment) (ctxRate : Nat)
  | finish (s : Segment)
deriving DecidableEq, Repr

structure AQSt where
  queue : List Segment
  isPlaying : Bool
  workers : List (Segment × Nat)
  ctx : Option Nat
  trace : List PlayEv
deriving DecidableEq, Repr

/-- The synchronous prefix of `playAudioSegment`: reuse the playback context
when one is open, otherwise create one at the segment's declared sample rate;
start the source; suspend at the returned promise. -/
def beginSegment (s : Segment) (st : AQSt) : AQSt :=
  let rate := match st.ctx with
    | none => s.sampleRate
    | some r => r
  { st with ctx := some rate,
            workers := st.workers ++ [(s, rate)],
            trace := st.trace ++ [PlayEv.start s rate] }

/-- `playAudio`: push onto `audioQueueRef`, then `processAudioQueue`, which
returns at once when `isPlayingRef` is set and otherwise sets it and runs the
worker loop up to its first suspension (or exit, were the queue empty). -/
def enqueueStep (s : Segment) (st : AQSt) : AQSt :=
  let st := { st with queue := st.queue ++ [s] }
  if st.isPlaying then st
  else
    match st.queue with
    | [] => { st with isPlaying := false }
    | hd :: t => beginSegment hd { st with queue := t, isPlaying := true }

/-- Resolution of the oldest pending `playAudioSegment` promise: its worker
resumes the loop — shift and start the next segment, or exit and reset
`isPlayingRef` when the queue is empty. -/
def finishStep (st : AQSt) : AQSt :=
  match st.workers with
  | [] => st
  | (w, _) :: rest =>
    let st := { st with workers := rest,
                        trace := st.trace ++ [PlayEv.finish w] }
    match st.queue with
    | [] => { st with isPlaying := false }
    | hd :: t => beginSegment hd { st with queue := t }

/-- `clearAudioQueue`: discard the queue, close and null the context, reset
`isPlayingRef`. -/
def clearStep (st : AQSt) : AQSt :=
  { st with queue := [], ctx := none, isPlaying := false }

inductive AQAct
  | enqueue (s : Segment)
  | finish
  | clear
deriving DecidableEq, Repr

def aqStep (st : AQSt) (a : AQAct) : AQSt :=
  match a with
  | .enqueue s => enqueueStep s st
  | .finish => finishStep st
  | .clear => clearStep st

def aqInit : AQSt := ⟨[], false, [], none, []⟩

def aqRun (acts : List AQAct) : AQSt := acts.foldl aqStep aqInit

/-- The segments enqueued by an action sequence, in order. -/
def enqueuedSegs : List AQAct → List Segment
  | [] => []
  | .enqueue s :: rest => s :: enqueuedSegs rest
  | .finish :: rest => enqueuedSegs rest
  | .clear :: rest => enqueuedSegs rest

/-- The trace of a fully sequential playback history: each segment's start is
immediately followed by its completion before the next segment starts. -/
def flatTrace : List (Segment × Nat) → List PlayEv
  | [] => []
  | (s, r) :: rest => PlayEv.start s r :: PlayEv.finish s :: flatTrace rest

/-- Little-endian reinterpretation of two bytes as a signed 16-bit sample
(the `Int16Array` view of the decoded byte buffer in `playAudioSegment`). -/
def int16OfBytes (lo hi : Nat) : ℤ :=
  let u := lo + 256 * hi
  if u < 32768 then (u : ℤ) else (u : ℤ) - 65536

/-- The playback-side sample conversion loop of `playAudioSegment`: pair the
bytes little-endian, reinterpret as Int16, divide by 32768 (a trailing odd
byte is dropped, as the `Int16Array` view floors the length). -/
def bytesToSamples : List ℕ → List ℚ
  | lo :: hi :: rest => decodePCM16 (int16OfBytes lo hi) :: bytesToSamples rest
  | _ => []

/-- Invariant of queue states reachable without `clearAudioQueue`: the playing
flag mirrors the presence of the single suspended worker, and the trace is a
fully sequential playback history of a prefix of the enqueue order, with the
queue holding the remainder. -/
def C2Inv (enq : List Segment) (st : AQSt) : Prop :=
  st.isPlaying = !st.workers.isEmpty ∧
  st.workers.length ≤ 1 ∧
  ∃ completed : List (Segment × Nat),
    st.trace = flatTrace completed
        ++ st.workers.map (fun p => PlayEv.start p.1 p.2) ∧
    completed.map Prod.fst ++ st.workers.map Prod.fst ++ st.queue = enq

/-- Invariant when every enqueued segment declares sample rate `r`: the
context, if open, has rate `r`, the queue holds only rate-`r` segments, and
every playback start so far went through a rate-`r` context. -/
def UniRate (r : Nat) (st : AQSt) : Prop :=
  (st.ctx = none ∨ st.ctx = some r) ∧
  (∀ s ∈ st.queue, s.sampleRate = r) ∧
  (∀ ev ∈ st.trace, ∀ s cr, ev = PlayEv.start s cr → cr = r ∧ s.sampleRate = r)

/-! ## WebSocket connection manager

From `useWebSocket` (`connect`, the `onopen`/`onclose` handlers, the
reconnect `setTimeout`, and `disconnect`).  Sockets ever constructed are
listed by creation index; their `onopen`/`onclose` handlers stay attached for
the socket's whole life, whether or not `wsRef` still points at it.  `openEv i`
and `closeEv i` are the browser delivering socket `i`'s open/close event
(a close is delivered both after an abnormal drop and after a `close()` call);
`timer` is the reconnect timeout firing (after its fixed 3-second delay,
which the model abstracts away).  `reconnectsScheduled` counts the reconnect
timeouts the `onclose` handler has scheduled. -/

inductive SockPhase
  | connecting
  | opened
  | closed
deriving DecidableEq, Repr

structure WSSt where
  socks : List SockPhase
  wsRef : Option Nat
  pendingReconnect : Bool
  isConnected : Bool
  reconnectsScheduled : Nat
deriving DecidableEq, Repr

/-- The guard `wsRef.current?.readyState === WebSocket.OPEN`. -/
def refOpen (st : WSSt) : Bool :=
  match st.wsRef with
  | some i => st.socks.getD i .closed == SockPhase.opened
  | none => false

/-- `connect()`: a no-op when the tracked socket is OPEN; otherwise constructs
a new socket (initially CONNECTING) and replaces the handle. -/
def connectFn (st : WSSt) : WSSt :=
  if refOpen st then st
  else { st with socks := st.socks ++ [.connecting],
                 wsRef := some st.socks.length }

/-- Socket `i`'s `onopen` fires: the socket becomes OPEN and the handler sets
`isConnected` (the handler runs regardless of whether `wsRef` still points at
this socket). -/
def openEvt (i : Nat) (st : WSSt) : WSSt :=
  if st.socks.getD i .closed = SockPhase.connecting then
    { st with socks := st.socks.set i .opened, isConnected := true }
  else st

/-- Socket `i`'s `onclose` fires: clears `isConnected` and unconditionally
schedules a reconnect attempt (one `setTimeout` per close event). -/
def closeEvt (i : Nat) (st : WSSt) : WSSt :=
  if st.socks.getD i .closed ≠ SockPhase.closed then
    { st with socks := st.socks.set i .closed,
              isConnected := false,
              pendingReconnect := true,
              reconnectsScheduled := st.reconnectsScheduled + 1 }
  else st

/-- The reconnect timeout fires (when not cancelled) and calls `connect()`. -/
def timerFire (st : WSSt) : WSSt :=
  if st.pendingReconnect then connectFn { st with pendingReconnect := false }
  else st

/-- `disconnect()`: clears any pending reconnect timeout, requests closure of
the tracked socket (its close event arrives later as a `closeEv`), and nulls
the handle. -/
def disconnectFn (st : WSSt) : WSSt :=
  { st with pendingReconnect := false, wsRef := none }

inductive WSAct
  | connect
  | openEv (i : Nat)
  | closeEv (i : Nat)
  | timer
  | disconnect
deriving DecidableEq, Repr

def wsStep (st : WSSt) (a : WSAct) : WSSt :=
  match a with
  | .connect => connectFn st
  | .openEv i => openEvt i st
  | .closeEv i => closeEvt i st
  | .timer => timerFire st
  | .disconnect => disconnectFn st

def wsInit : WSSt := ⟨[], none, false, false, 0⟩

def wsRun (acts : List WSAct) : WSSt := acts.foldl wsStep wsInit

/-- Number of sockets currently OPEN. -/
def countOpen (st : WSSt) : Nat :=
  (st.socks.filter (fun p => p == SockPhase.opened)).length

theorem clampSample_le_one (x : ℚ) : clampSample x ≤ 1 :=
  max_le (by norm_num) (min_le_left _ _)

theorem neg_one_le_clampSample (x : ℚ) : -1 ≤ clampSample x := le_max_left _ _

theorem int16wrap_eq_self {n : ℤ} (h1 : -32768 ≤ n) (h2 : n ≤ 32767) :
    int16wrap n = n := by
  unfold int16wrap
  rw [Int.emod_eq_of_lt (by omega) (by omega)]
  omega

/-- The scaled truncation never leaves the signed 16-bit range, so the
`Int16Array` wrap is the identity on every encoded sample. -/
theorem encodePCM16_eq (x : ℚ) :
    encodePCM16 x
      = truncQ (if clampSample x < 0 then clampSample x * 32768
                else clampSample x * 32767) := by
  have hs1 : -1 ≤ clampSample x := neg_one_le_clampSample x
  have hs2 : clampSample x ≤ 1 := clampSample_le_one x
  unfold encodePCM16
  apply int16wrap_eq_self
  · by_cases h : clampSample x < 0
    · rw [if_pos h]
      unfold truncQ
      rw [if_pos (by nlinarith)]
      have h1 : clampSample x * 32768 ≤ (⌈clampSample x * 32768⌉ : ℚ) :=
        Int.le_ceil _
      have h2 : (-32768 : ℚ) ≤ clampSample x * 32768 := by nlinarith
      exact_mod_cast h2.trans h1
    · rw [if_neg h]
      unfold truncQ
      rw [if_neg (by push_neg at h ⊢; nlinarith)]
      have h1 : (0 : ℤ) ≤ ⌊clampSample x * 32767⌋ := by
        apply Int.le_floor.mpr
        push_neg at h
        push_cast
        nlinarith
      omega
  · by_cases h : clampSample x < 0
    · rw [if_pos h]
      unfold truncQ
      rw [if_pos (by nlinarith)]
      have h1 : ⌈clampSample x * 32768⌉ ≤ 0 := by
        apply Int.ceil_le.mpr
        push_cast
        nlinarith
      omega
    · rw [if_neg h]
      unfold truncQ
      rw [if_neg (by push_neg at h ⊢; nlinarith)]
      have h1 : (⌊clampSample x * 32767⌋ : ℚ) ≤ clampSample x * 32767 :=
        Int.floor_le _
      have h2 : clampSample x * 32767 ≤ 32767 := by nlinarith
      exact_mod_cast h1.trans h2

/-- Claim C3, counterexample: at the sample 65535/65536 (a value exactly
representable as a 32-bit float), encoding to PCM16 and decoding back lands
3/65536 away from the clamped sample, which exceeds one quantization
step 1/32768 = 2/65536 — the claimed one-step round-trip bound is false. -/
theorem pcm16_roundtrip_one_step_counterexample :
    ¬ (|clampSample (65535/65536) - decodePCM16 (encodePCM16 (65535/65536))|
        ≤ 1 / 32768) := by
  have hclamp : clampSample (65535/65536) = 65535/65536 := by
    unfold clampSample
    rw [min_eq_right (by norm_num), max_eq_right (by norm_num)]
  have henc : encodePCM16 (65535/65536) = 32766 := by
    rw [encodePCM16_eq, hclamp]
    rw [if_neg (by norm_num)]
    unfold truncQ
    rw [if_neg (by norm_num)]
    rw [show (65535/65536 : ℚ) * 32767 = 2147385345/65536 by norm_num]
    rw [Int.floor_eq_iff]
    constructor <;> norm_num
  rw [hclamp, henc]
  unfold decodePCM16
  rw [abs_of_pos (by norm_num)]
  norm_num

/-- Claim C3 (amended): for every sample value, encoding to PCM16 (clamp to
[-1,1], scale by 32767 when non-negative and by 32768 when negative, truncate
to Int16) then decoding back (divide by 32768) yields a value within two
quantization steps (strictly less than 2/32768) of the clamped sample; the
one-sided scale mismatch (32767 on encode vs 32768 on decode) makes errors of
up to almost 2/32768 possible for samples near 1, so the one-step bound fails
but the two-step bound holds, pointwise for every sample. -/
theorem pcm16_roundtrip_within_two_steps (x : ℚ) :
    |clampSample x - decodePCM16 (encodePCM16 x)| < 2 / 32768 := by
  have hs1 : -1 ≤ clampSample x := neg_one_le_clampSample x
  have hs2 : clampSample x ≤ 1 := clampSample_le_one x
  rw [encodePCM16_eq]
  by_cases h : clampSample x < 0
  · rw [if_pos h]
    unfold truncQ
    rw [if_pos (by nlinarith)]
    have h1 : clampSample x * 32768 ≤ (⌈clampSample x * 32768⌉ : ℚ) :=
      Int.le_ceil _
    have h2 : (⌈clampSample x * 32768⌉ : ℚ) < clampSample x * 32768 + 1 := by
      exact_mod_cast Int.ceil_lt_add_one _
    unfold decodePCM16
    rw [abs_sub_lt_iff]
    constructor <;>
      · rw [lt_div_iff₀ (by norm_num : (0:ℚ) < 32768)]
        ring_nf
        ring_nf at h1 h2
        linarith
  · rw [if_neg h]
    push_neg at h
    unfold truncQ
    rw [if_neg (by push_neg; nlinarith)]
    have h1 : (⌊clampSample x * 32767⌋ : ℚ) ≤ clampSample x * 32767 :=
      Int.floor_le _
    have h2 : clampSample x * 32767 - 1 < (⌊clampSample x * 32767⌋ : ℚ) := by
      exact_mod_cast Int.sub_one_lt_floor _
    unfold decodePCM16
    rw [abs_sub_lt_iff]
    constructor <;>
      · rw [lt_div_iff₀ (by norm_num : (0:ℚ) < 32768)]
        ring_nf
        ring_nf at h1 h2
        linarith

/-- Handling a `response_token` frame appends the token to the streaming
accumulator and syncs the ref; folded over a token list, the accumulator
holds the previous content followed by the tokens' concatenation in arrival
order (given that the ref starts in sync with the state, as the sync effect
guarantees). -/
theorem dispatch_tokens (ts : List String) (st : AppSt)
    (hsync : st.streamingContentRef = st.streamingContent) :
    dispatchAll (ts.map WSMsg.responseToken) st =
      { st with streamingContent := st.streamingContent ++ concatTokens ts,
                streamingContentRef := st.streamingContent ++ concatTokens ts } := by
  induction ts generalizing st with
  | nil =>
      cases st
      simp_all [dispatchAll, concatTokens, String.append_empty]
  | cons t ts ih =>
      show dispatchAll (ts.map .responseToken)
            (dispatchMessage (.responseToken t) st) = _
      rw [show dispatchMessage (.responseToken t) st
            = { st with streamingContent := st.streamingContent ++ t,
                        streamingContentRef := st.streamingContent ++ t } from rfl]
      rw [ih _ rfl]
      simp [concatTokens, String.append_assoc]

/-- Claim C1: for every sequence of `response_token` frames followed by one
`response_end`, handled in arrival order from a state whose streaming
accumulator (state and ref) is empty, the finalized assistant message appended
to the turn buffer has content equal to the concatenation of all token
payloads in arrival order, and the streaming accumulator is the empty string
immediately after the `response_end` is handled (the flush reads the
synchronously-updated ref, not a stale closure). -/
theorem response_stream_flush (ts : List String) (st : AppSt)
    (h1 : st.streamingContent = "") (h2 : st.streamingContentRef = "") :
    (dispatchAll (ts.map WSMsg.responseToken ++ [WSMsg.responseEnd]) st).messages
        = st.messages ++ [⟨.assistant, concatTokens ts⟩] ∧
    (dispatchAll (ts.map WSMsg.responseToken ++ [WSMsg.responseEnd]) st).streamingContent
        = "" := by
  have hfold : dispatchAll (ts.map WSMsg.responseToken ++ [WSMsg.responseEnd]) st
      = dispatchMessage WSMsg.responseEnd
          (dispatchAll (ts.map WSMsg.responseToken) st) := by
    unfold dispatchAll
    rw [List.foldl_append]
    rfl
  rw [hfold, dispatch_tokens ts st (h2.trans h1.symm)]
  rw [h1]
  simp [dispatchMessage, handleMessage, syncStreamingRef, String.empty_append]

/-- Witness for C1: the tokens "Hel", "lo" then `response_end`, from the
initial empty state, produce the single assistant message "Hello" and an
empty accumulator. -/
theorem response_stream_flush_witness :
    (dispatchAll (["Hel", "lo"].map WSMsg.responseToken ++ [WSMsg.responseEnd])
        ⟨.idle, [], "", "", false, false, true⟩).messages
      = ([] : List Message) ++ [⟨.assistant, concatTokens ["Hel", "lo"]⟩] ∧
    (dispatchAll (["Hel", "lo"].map WSMsg.responseToken ++ [WSMsg.responseEnd])
        ⟨.idle, [], "", "", false, false, true⟩).streamingContent = "" :=
  response_stream_flush ["Hel", "lo"] ⟨.idle, [], "", "", false, false, true⟩ rfl rfl

/-- Claim C6, counterexample: a `stopped` status handled while the phase is
Thinking leaves the phase at Thinking — the code's `stopped` case never sets
the phase, so the claimed transition to Idle is false. -/
theorem stopped_status_phase_counterexample :
    (handleStatusUpdate "stopped"
      ⟨.thinking, [], "Partial respons", "Partial respons", false, false, true⟩).phase
      ≠ AppPhase.idle := by
  decide

/-- Claim C6 (amended): handling an inbound `stopped` status leaves the
application phase unchanged (Idle is reached only through a later
`ready`/`listening` status or a local stop), and if the streaming accumulator
is non-empty, exactly one assistant message whose content is the accumulated
text suffixed with " [stopped]" is appended to the turn buffer and the
accumulator becomes empty; with an empty accumulator the state is untouched. -/
theorem stopped_status_flush (st : AppSt) :
    (handleStatusUpdate "stopped" st).phase = st.phase ∧
    (st.streamingContentRef ≠ "" →
      (handleStatusUpdate "stopped" st).messages
        = st.messages ++ [⟨.assistant, st.streamingContentRef ++ " [stopped]"⟩] ∧
      (handleStatusUpdate "stopped" st).streamingContent = "") ∧
    (st.streamingContentRef = "" → handleStatusUpdate "stopped" st = st) := by
  by_cases h : st.streamingContentRef = "" <;>
    simp [handleStatusUpdate, h]

/-- Witness for C6 (amended): the `stopped` status with accumulator
"Partial respons" in phase Thinking keeps the phase and flushes exactly one
"Partial respons [stopped]" assistant message. -/
theorem stopped_status_flush_witness :
    (handleStatusUpdate "stopped"
      ⟨.thinking, [], "Partial respons", "Partial respons", false, false, true⟩).phase
      = AppPhase.thinking ∧
    (("Partial respons" : String) ≠ "" →
      (handleStatusUpdate "stopped"
        ⟨.thinking, [], "Partial respons", "Partial respons", false, false, true⟩).messages
        = [] ++ [⟨.assistant, "Partial respons" ++ " [stopped]"⟩] ∧
      (handleStatusUpdate "stopped"
        ⟨.thinking, [], "Partial respons", "Partial respons", false, false, true⟩).streamingContent
        = "") ∧
    (("Partial respons" : String) = "" →
      handleStatusUpdate "stopped"
        ⟨.thinking, [], "Partial respons", "Partial respons", false, false, true⟩
      = ⟨.thinking, [], "Partial respons", "Partial respons", false, false, true⟩) :=
  stopped_status_flush
    ⟨.thinking, [], "Partial respons", "Partial respons", false, false, true⟩

/-- Claim C7: sending a text message while microphone capture is active (and
the backend model is available) stops capture exactly once, then sends exactly
one `text` frame with the message, and every chunk produced after the
listening flag is cleared is dropped by the chunk sink, so no microphone audio
is sent after the stop. -/
theorem sendText_stops_capture_once (text : String) (st : AppSt)
    (hav : st.ollamaAvailable = true) (hl : st.isListening = true) :
    (handleSendText text st).2 = [OutEv.stopCapture, OutEv.sendText text] ∧
    (handleSendText text st).2.count OutEv.stopCapture = 1 ∧
    (handleSendText text st).1.isListeningRef = false ∧
    (handleSendText text st).1.isListening = false ∧
    ∀ chunk, handleAudioChunk chunk (handleSendText text st).1 = [] := by
  simp [handleSendText, hav, hl, handleAudioChunk, List.count_cons]

/-- Witness for C7: sending "Hello" while listening from a concrete state. -/
theorem sendText_stops_capture_once_witness :
    (handleSendText "Hello" ⟨.listening, [], "", "", true, true, true⟩).2
      = [OutEv.stopCapture, OutEv.sendText "Hello"] ∧
    (handleSendText "Hello" ⟨.listening, [], "", "", true, true, true⟩).2.count
      OutEv.stopCapture = 1 ∧
    (handleSendText "Hello" ⟨.listening, [], "", "", true, true, true⟩).1.isListeningRef
      = false ∧
    (handleSendText "Hello" ⟨.listening, [], "", "", true, true, true⟩).1.isListening
      = false ∧
    ∀ chunk, handleAudioChunk chunk
      (handleSendText "Hello" ⟨.listening, [], "", "", true, true, true⟩).1 = [] :=
  sendText_stops_capture_once "Hello" ⟨.listening, [], "", "", true, true, true⟩ rfl rfl

/-- Claim C10: handling `response_end` always appends a finalized assistant
message (with the accumulator's content, empty content included), whereas a
`stopped` status appends a message only when the accumulator is non-empty and
leaves the turn buffer untouched when it is empty. -/
theorem responseEnd_appends_stopped_conditional (st : AppSt) :
    (handleMessage WSMsg.responseEnd st).messages
        = st.messages ++ [⟨Role.assistant, st.streamingContentRef⟩] ∧
    (st.streamingContentRef = "" →
      (handleMessage (WSMsg.status "stopped") st).messages = st.messages) ∧
    (st.streamingContentRef ≠ "" →
      (handleMessage (WSMsg.status "stopped") st).messages
        = st.messages ++ [⟨Role.assistant, st.streamingContentRef ++ " [stopped]"⟩]) := by
  by_cases h : st.streamingContentRef = "" <;>
    simp [handleMessage, handleStatusUpdate, h]

/-- Witness for C10: with an empty accumulator, `response_end` appends an
empty assistant message and `stopped` appends nothing. -/
theorem flatTrace_append (a b : List (Segment × Nat)) :
    flatTrace (a ++ b) = flatTrace a ++ flatTrace b := by
  induction a with
  | nil => rfl
  | cons p rest ih => cases p; simp [flatTrace, ih]

/-- `playAudio` preserves the sequential-playback invariant: it either only
appends to the queue (worker already running) or starts the worker on the
head of the extended queue. -/
theorem c2inv_enqueue (s : Segment) (st : AQSt) (enq : List Segment)
    (h : C2Inv enq st) : C2Inv (enq ++ [s]) (enqueueStep s st) := by
  obtain ⟨hp, hw, completed, htr, hord⟩ := h
  by_cases hpl : st.isPlaying
  · refine ⟨?_, ?_, completed, ?_, ?_⟩
    · simpa [enqueueStep, hpl] using hp
    · simpa [enqueueStep, hpl] using hw
    · simpa [enqueueStep, hpl] using htr
    · simp only [enqueueStep, hpl, if_true]
      rw [← hord]
      simp
  · have hwe : st.workers = [] := by
      cases hws : st.workers
      · rfl
      · rw [hws] at hp; simp at hp; simp_all
    cases hq : st.queue with
    | nil =>
        refine ⟨?_, ?_, completed, ?_, ?_⟩
        · simp [enqueueStep, beginSegment, hpl, hq, hwe]
        · simp [enqueueStep, beginSegment, hpl, hq, hwe]
        · simp [enqueueStep, beginSegment, hpl, hq, htr, hwe]
        · rw [hq, hwe] at hord
          simp at hord
          simp [enqueueStep, beginSegment, hpl, hq, hwe, hord]
    | cons hd t =>
        refine ⟨?_, ?_, completed, ?_, ?_⟩
        · simp [enqueueStep, beginSegment, hpl, hq, hwe]
        · simp [enqueueStep, beginSegment, hpl, hq, hwe]
        · simp [enqueueStep, beginSegment, hpl, hq, htr, hwe]
        · rw [hq, hwe] at hord
          simp at hord
          simp [enqueueStep, beginSegment, hpl, hq, hwe, ← hord]

/-- Completion of the segment being played preserves the invariant: the
finished segment moves into the completed history and the worker either
starts the next queued segment or exits. -/
theorem c2inv_finish (st : AQSt) (enq : List Segment)
    (h : C2Inv enq st) : C2Inv enq (finishStep st) := by
  obtain ⟨hp, hw, completed, htr, hord⟩ := h
  cases hws : st.workers with
  | nil => simpa [finishStep, hws] using ⟨hp, hw, completed, htr, hord⟩
  | cons wr rest =>
    obtain ⟨w, r⟩ := wr
    have hrest : rest = [] := by
      rw [hws] at hw; simpa using hw
    subst hrest
    cases hq : st.queue with
    | nil =>
        refine ⟨?_, ?_, completed ++ [(w, r)], ?_, ?_⟩
        · simp [finishStep, hws, hq]
        · simp [finishStep, hws, hq]
        · rw [hws] at htr
          simp [finishStep, hws, hq, htr, flatTrace_append, flatTrace]
        · rw [hws, hq] at hord
          simp at hord
          simp [finishStep, hws, hq, hord]
    | cons hd t =>
        have hpl : st.isPlaying = true := by rw [hws] at hp; simpa using hp
        refine ⟨?_, ?_, completed ++ [(w, r)], ?_, ?_⟩
        · simp [finishStep, beginSegment, hws, hq, hpl]
        · simp [finishStep, beginSegment, hws, hq]
        · rw [hws] at htr
          simp [finishStep, beginSegment, hws, hq, htr, flatTrace_append, flatTrace]
        · rw [hws, hq] at hord
          simp at hord
          simp [finishStep, beginSegment, hws, hq, ← hord]

theorem c2inv_run (acts : List AQAct) (st : AQSt) (enq : List Segment)
    (h : C2Inv enq st) (hnc : ∀ a ∈ acts, a ≠ AQAct.clear) :
    C2Inv (enq ++ enqueuedSegs acts) (acts.foldl aqStep st) := by
  induction acts generalizing st enq with
  | nil => simpa [enqueuedSegs] using h
  | cons a rest ih =>
      cases a with
      | enqueue s =>
          have hstep := ih (enqueueStep s st) (enq ++ [s]) (c2inv_enqueue s st enq h)
            (fun a ha => hnc a (List.mem_cons_of_mem _ ha))
          simpa [enqueuedSegs, List.append_assoc] using hstep
      | finish =>
          have hstep := ih (finishStep st) enq (c2inv_finish st enq h)
            (fun a ha => hnc a (List.mem_cons_of_mem _ ha))
          simpa [enqueuedSegs] using hstep
      | clear => exact absurd rfl (hnc .clear (List.mem_cons_self _ _))

/-- Claim C2: for every interleaving of `playAudio` calls and playback
completions (no queue clear), segments play strictly in FIFO order of enqueue
with no two playback spans overlapping: the trace is an alternation in which
each started segment finishes before the next start (`flatTrace`), with at
most one segment currently playing (the single worker, whose presence the
playing flag mirrors: the worker exits when the queue is empty and is
restarted by the next enqueue), and the completed-then-playing segments
followed by the queue reproduce the enqueue order exactly. -/
theorem audio_queue_fifo_no_overlap (acts : List AQAct)
    (hnc : ∀ a ∈ acts, a ≠ AQAct.clear) :
    (aqRun acts).isPlaying = !(aqRun acts).workers.isEmpty ∧
    (aqRun acts).workers.length ≤ 1 ∧
    ∃ completed : List (Segment × Nat),
      (aqRun acts).trace
        = flatTrace completed
          ++ (aqRun acts).workers.map (fun p => PlayEv.start p.1 p.2) ∧
      completed.map Prod.fst ++ (aqRun acts).workers.map Prod.fst
          ++ (aqRun acts).queue
        = enqueuedSegs acts := by
  have h0 : C2Inv [] aqInit :=
    ⟨rfl, by simp [aqInit], [], by simp [aqInit, flatTrace], by simp [aqInit]⟩
  have hrun := c2inv_run acts aqInit [] h0 hnc
  obtain ⟨hp, hw, completed, htr, hord⟩ := hrun
  exact ⟨hp, hw, completed, by simpa using htr, by simpa using hord⟩

/-- Witness for C2: two enqueues and one completion, with no clear action. -/
theorem audio_queue_fifo_no_overlap_witness :
    (∀ a ∈ [AQAct.enqueue ⟨"x", 24000⟩, AQAct.enqueue ⟨"y", 24000⟩,
            AQAct.finish], a ≠ AQAct.clear) ∧
    ((aqRun [AQAct.enqueue ⟨"x", 24000⟩, AQAct.enqueue ⟨"y", 24000⟩,
        AQAct.finish]).isPlaying
      = !(aqRun [AQAct.enqueue ⟨"x", 24000⟩, AQAct.enqueue ⟨"y", 24000⟩,
            AQAct.finish]).workers.isEmpty ∧
    (aqRun [AQAct.enqueue ⟨"x", 24000⟩, AQAct.enqueue ⟨"y", 24000⟩,
        AQAct.finish]).workers.length ≤ 1 ∧
    ∃ completed : List (Segment × Nat),
      (aqRun [AQAct.enqueue ⟨"x", 24000⟩, AQAct.enqueue ⟨"y", 24000⟩,
          AQAct.finish]).trace
        = flatTrace completed
          ++ (aqRun [AQAct.enqueue ⟨"x", 24000⟩, AQAct.enqueue ⟨"y", 24000⟩,
                AQAct.finish]).workers.map (fun p => PlayEv.start p.1 p.2) ∧
      completed.map Prod.fst
          ++ (aqRun [AQAct.enqueue ⟨"x", 24000⟩, AQAct.enqueue ⟨"y", 24000⟩,
                AQAct.finish]).workers.map Prod.fst
          ++ (aqRun [AQAct.enqueue ⟨"x", 24000⟩, AQAct.enqueue ⟨"y", 24000⟩,
                AQAct.finish]).queue
        = enqueuedSegs [AQAct.enqueue ⟨"x", 24000⟩, AQAct.enqueue ⟨"y", 24000⟩,
            AQAct.finish]) :=
  ⟨by decide, audio_queue_fifo_no_overlap _ (by decide)⟩

/-- From a state with an empty queue, as long as nothing new is enqueued, no
playback ever starts again: pending workers only log completions and exit. -/
theorem no_start_after_empty_queue (acts : List AQAct) (st : AQSt)
    (hq : st.queue = [])
    (hne : ∀ a ∈ acts, ∀ s, a ≠ AQAct.enqueue s) :
    (acts.foldl aqStep st).queue = [] ∧
    ∃ ext, (acts.foldl aqStep st).trace = st.trace ++ ext ∧
      ∀ ev ∈ ext, ∀ s r, ev ≠ PlayEv.start s r := by
  induction acts generalizing st with
  | nil => exact ⟨hq, [], by simp, by simp⟩
  | cons a rest ih =>
      cases a with
      | enqueue s =>
          exact absurd rfl (hne _ (List.mem_cons_self _ _) s)
      | finish =>
          cases hws : st.workers with
          | nil =>
              have hfs : finishStep st = st := by simp [finishStep, hws]
              have := ih st hq (fun a ha => hne a (List.mem_cons_of_mem _ ha))
              simpa [List.foldl, aqStep, hfs] using this
          | cons wr rest' =>
              obtain ⟨w, r⟩ := wr
              have hfs : finishStep st =
                  { st with workers := rest', isPlaying := false,
                            trace := st.trace ++ [PlayEv.finish w] } := by
                simp [finishStep, hws, hq]
              have := ih (finishStep st) (by simp [hfs, hq])
                (fun a ha => hne a (List.mem_cons_of_mem _ ha))
              obtain ⟨hq', ext, htr, hnost⟩ := this
              refine ⟨by simpa [List.foldl, aqStep] using hq',
                      [PlayEv.finish w] ++ ext, ?_, ?_⟩
              · rw [show (List.foldl aqStep st (AQAct.finish :: rest)).trace
                    = (List.foldl aqStep (finishStep st) rest).trace from rfl]
                rw [htr, hfs]
                simp
              · intro ev hev s r
                rcases List.mem_append.mp hev with h1 | h1
                · simp at h1
                  simp [h1]
                · exact hnost ev h1 s r
      | clear =>
          have hcs : (clearStep st).queue = [] := rfl
          have := ih (clearStep st) hcs
            (fun a ha => hne a (List.mem_cons_of_mem _ ha))
          obtain ⟨hq', ext, htr, hnost⟩ := this
          refine ⟨by simpa [List.foldl, aqStep] using hq', ext, ?_, hnost⟩
          rw [show (List.foldl aqStep st (AQAct.clear :: rest)).trace
              = (List.foldl aqStep (clearStep st) rest).trace from rfl]
          rw [htr]
          rfl

/-- Claim C8: `clearAudioQueue` called in any state — mid-playback included —
leaves the segment queue empty, closes and nulls the output context
(halting the in-progress source, whose context is gone) and resets the
playing flag, and afterwards, for any continuation in which nothing new is
enqueued, the playback trace gains no start event: no previously queued
segment is ever played. -/
theorem clear_audio_queue_halts (st : AQSt) (acts : List AQAct)
    (hne : ∀ a ∈ acts, ∀ s, a ≠ AQAct.enqueue s) :
    (clearStep st).queue = [] ∧ (clearStep st).ctx = none ∧
    (clearStep st).isPlaying = false ∧
    ∃ ext, (acts.foldl aqStep (clearStep st)).trace = st.trace ++ ext ∧
      ∀ ev ∈ ext, ∀ s r, ev ≠ PlayEv.start s r := by
  obtain ⟨hq, ext, htr, hnost⟩ :=
    no_start_after_empty_queue acts (clearStep st) rfl hne
  exact ⟨rfl, rfl, rfl, ext, htr, hnost⟩

/-- Witness for C8: clearing during active playback (one segment playing, one
queued), followed by the pending completion. -/
theorem clear_audio_queue_halts_witness :
    (∀ a ∈ [AQAct.finish], ∀ s : Segment, a ≠ AQAct.enqueue s) ∧
    ((clearStep ⟨[⟨"q1", 24000⟩], true, [(⟨"p0", 24000⟩, 24000)], some 24000,
        [PlayEv.start ⟨"p0", 24000⟩ 24000]⟩).queue = [] ∧
    (clearStep ⟨[⟨"q1", 24000⟩], true, [(⟨"p0", 24000⟩, 24000)], some 24000,
        [PlayEv.start ⟨"p0", 24000⟩ 24000]⟩).ctx = none ∧
    (clearStep ⟨[⟨"q1", 24000⟩], true, [(⟨"p0", 24000⟩, 24000)], some 24000,
        [PlayEv.start ⟨"p0", 24000⟩ 24000]⟩).isPlaying = false ∧
    ∃ ext, (List.foldl aqStep
        (clearStep ⟨[⟨"q1", 24000⟩], true, [(⟨"p0", 24000⟩, 24000)], some 24000,
          [PlayEv.start ⟨"p0", 24000⟩ 24000]⟩) [AQAct.finish]).trace
      = [PlayEv.start ⟨"p0", 24000⟩ 24000] ++ ext ∧
      ∀ ev ∈ ext, ∀ s r, ev ≠ PlayEv.start s r) :=
  ⟨by intro a ha s; simp at ha; subst ha; simp,
   clear_audio_queue_halts
     ⟨[⟨"q1", 24000⟩], true, [(⟨"p0", 24000⟩, 24000)], some 24000,
      [PlayEv.start ⟨"p0", 24000⟩ 24000]⟩ [AQAct.finish]
     (by intro a ha s; simp at ha; subst ha; simp)⟩

/-- Claim C9, counterexample: enqueue a segment declaring 24000 Hz, then one
declaring 16000 Hz, then let the first finish — the second segment plays
through the reused output context created at 24000 Hz, not through a context
at its own declared 16000 Hz, so the claim that every segment's output
context has the segment's declared sample rate is false. -/
theorem playback_context_rate_counterexample :
    ¬ (∀ s r, PlayEv.start s r ∈
        (aqRun [AQAct.enqueue ⟨"a", 24000⟩, AQAct.enqueue ⟨"b", 16000⟩,
                AQAct.finish]).trace → r = s.sampleRate) := by
  intro h
  have hmem : PlayEv.start ⟨"b", 16000⟩ 24000 ∈
      (aqRun [AQAct.enqueue ⟨"a", 24000⟩, AQAct.enqueue ⟨"b", 16000⟩,
              AQAct.finish]).trace := by decide
  exact absurd (h _ _ hmem) (by decide)

theorem uniRate_step (r : Nat) (st : AQSt) (a : AQAct)
    (h : UniRate r st) (ha : ∀ s, a = AQAct.enqueue s → s.sampleRate = r) :
    UniRate r (aqStep st a) := by
  obtain ⟨hctx, hqr, htr⟩ := h
  cases a with
  | enqueue s =>
      have hsr : s.sampleRate = r := ha s rfl
      by_cases hpl : st.isPlaying
      · refine ⟨?_, ?_, ?_⟩
        · rcases hctx with h1 | h1 <;> simp [aqStep, enqueueStep, hpl, h1]
        · intro q hqmem
          simp [aqStep, enqueueStep, hpl] at hqmem
          rcases hqmem with h1 | h1
          · exact hqr q h1
          · rw [h1]; exact hsr
        · intro ev hev s' cr hev'
          simp [aqStep, enqueueStep, hpl] at hev
          exact htr ev hev s' cr hev'
      · cases hq : st.queue with
        | nil =>
            have hrate : (match st.ctx with
                | none => s.sampleRate
                | some rr => rr) = r := by
              rcases hctx with h1 | h1 <;> simp [h1, hsr]
            refine ⟨?_, ?_, ?_⟩
            · right
              simp [aqStep, enqueueStep, beginSegment, hpl, hq, hrate]
            · intro q hqmem
              simp [aqStep, enqueueStep, beginSegment, hpl, hq] at hqmem
            · intro ev hev s' cr hev'
              simp [aqStep, enqueueStep, beginSegment, hpl, hq] at hev
              rcases hev with h1 | h1
              · exact htr ev h1 s' cr hev'
              · rw [h1] at hev'
                cases hev'
                exact ⟨hrate, hsr⟩
        | cons hd t =>
            have hhd : hd.sampleRate = r := hqr hd (by simp [hq])
            have hrate : (match st.ctx with
                | none => hd.sampleRate
                | some rr => rr) = r := by
              rcases hctx with h1 | h1 <;> simp [h1, hhd]
            refine ⟨?_, ?_, ?_⟩
            · right
              simp [aqStep, enqueueStep, beginSegment, hpl, hq, hrate]
            · intro q hqmem
              simp [aqStep, enqueueStep, beginSegment, hpl, hq] at hqmem
              rcases hqmem with h1 | h1
              · exact hqr q (by simp [hq, h1])
              · rw [h1]; exact hsr
            · intro ev hev s' cr hev'
              simp [aqStep, enqueueStep, beginSegment, hpl, hq] at hev
              rcases hev with h1 | h1
              · exact htr ev h1 s' cr hev'
              · rw [h1] at hev'
                cases hev'
                exact ⟨hrate, hhd⟩
  | finish =>
      cases hws : st.workers with
      | nil => simpa [aqStep, finishStep, hws] using ⟨hctx, hqr, htr⟩
      | cons wr rest =>
          obtain ⟨w, wrr⟩ := wr
          cases hq : st.queue with
          | nil =>
              refine ⟨?_, ?_, ?_⟩
              · rcases hctx with h1 | h1 <;> simp [aqStep, finishStep, hws, hq, h1]
              · intro q hqmem
                simp [aqStep, finishStep, hws, hq] at hqmem
              · intro ev hev s' cr hev'
                simp [aqStep, finishStep, hws, hq] at hev
                rcases hev with h1 | h1
                · exact htr ev h1 s' cr hev'
                · rw [h1] at hev'
                  cases hev'
          | cons hd t =>
              have hhd : hd.sampleRate = r := hqr hd (by simp [hq])
              have hrate : (match st.ctx with
                  | none => hd.sampleRate
                  | some rr => rr) = r := by
                rcases hctx with h1 | h1 <;> simp [h1, hhd]
              refine ⟨?_, ?_, ?_⟩
              · right
                simp [aqStep, finishStep, beginSegment, hws, hq, hrate]
              · intro q hqmem
                simp [aqStep, finishStep, beginSegment, hws, hq] at hqmem
                exact hqr q (by simp [hq, hqmem])
              · intro ev hev s' cr hev'
                simp [aqStep, finishStep, beginSegment, hws, hq] at hev
                rcases hev with h1 | h1 | h1
                · exact htr ev h1 s' cr hev'
                · rw [h1] at hev'
                  cases hev'
                · rw [h1] at hev'
                  cases hev'
                  exact ⟨hrate, hhd⟩
  | clear =>
      refine ⟨Or.inl rfl, ?_, ?_⟩
      · intro q hqmem
        simp [aqStep, clearStep] at hqmem
      · intro ev hev s' cr hev'
        exact htr ev hev s' cr hev'

/-- Claim C9 (amended): each played segment's bytes are reinterpreted as
little-endian 16-bit PCM and converted to floating-point samples by dividing
by 32768; the output context, however, is created at the declared sample rate
of the first segment played while the context is null or closed and is then
reused for subsequent segments regardless of their declared rates — so a
segment's output context is guaranteed to have the segment's declared rate
exactly when all enqueued segments declare one common rate, as proved here
for every action sequence (clears included). -/
theorem playback_segment_rendering (acts : List AQAct) (r : Nat)
    (h : ∀ s, AQAct.enqueue s ∈ acts → s.sampleRate = r) :
    (∀ lo hi rest, bytesToSamples (lo :: hi :: rest)
        = decodePCM16 (int16OfBytes lo hi) :: bytesToSamples rest) ∧
    ∀ s cr, PlayEv.start s cr ∈ (aqRun acts).trace
      → cr = r ∧ s.sampleRate = r := by
  refine ⟨fun lo hi rest => rfl, ?_⟩
  suffices hsuff : ∀ st, UniRate r st →
      (∀ s, AQAct.enqueue s ∈ acts → s.sampleRate = r) →
      UniRate r (acts.foldl aqStep st) by
    have h0 : UniRate r aqInit :=
      ⟨Or.inl rfl, by simp [aqInit], by simp [aqInit]⟩
    obtain ⟨-, -, htr⟩ := hsuff aqInit h0 h
    intro s cr hmem
    exact htr _ hmem s cr rfl
  clear h
  induction acts with
  | nil => intro st hst _; simpa using hst
  | cons a rest ih =>
      intro st hst hall
      have hstep := uniRate_step r st a hst
        (fun s hs => hall s (by rw [hs]; exact List.mem_cons_self _ _))
      exact ih (aqStep st a) hstep
        (fun s hs => hall s (List.mem_cons_of_mem _ hs))

/-- Witness for C9 (amended): one 24000 Hz segment enqueued and finished. -/
theorem playback_segment_rendering_witness :
    (∀ s : Segment, AQAct.enqueue s ∈ [AQAct.enqueue ⟨"a", 24000⟩, AQAct.finish]
        → s.sampleRate = 24000) ∧
    ((∀ lo hi rest, bytesToSamples (lo :: hi :: rest)
        = decodePCM16 (int16OfBytes lo hi) :: bytesToSamples rest) ∧
    ∀ s cr, PlayEv.start s cr ∈
        (aqRun [AQAct.enqueue ⟨"a", 24000⟩, AQAct.finish]).trace
      → cr = 24000 ∧ s.sampleRate = 24000) := by
  have hrates : ∀ s : Segment,
      AQAct.enqueue s ∈ [AQAct.enqueue ⟨"a", 24000⟩, AQAct.finish]
        → s.sampleRate = 24000 := by
    intro s hs
    simp at hs
    rw [hs]
  exact ⟨hrates, playback_segment_rendering _ 24000 hrates⟩

/-- Claim C4: after an abnormal close exactly one reconnect attempt is
scheduled, and `disconnect()` cancels any pending reconnect timer (so a
disconnect between an abnormal close and its timer firing does prevent that
reconnection) and nulls the handle — but the close event triggered by
`disconnect()`'s own `close()` call still runs the socket's `onclose` handler,
which unconditionally schedules a fresh reconnect; when that timer fires a new
socket is created with no intervening `connect()` call, contradicting the
claim that no automatic reconnection occurs after `disconnect()`. -/
theorem disconnect_close_still_reconnects :
    (wsRun [WSAct.connect, WSAct.openEv 0, WSAct.closeEv 0]).reconnectsScheduled
      = 1 ∧
    (wsRun [WSAct.connect, WSAct.openEv 0, WSAct.closeEv 0]).pendingReconnect
      = true ∧
    (wsRun [WSAct.connect, WSAct.openEv 0, WSAct.closeEv 0, WSAct.disconnect,
        WSAct.timer]).socks.length = 1 ∧
    (∀ st : WSSt, (disconnectFn st).pendingReconnect = false
        ∧ (disconnectFn st).wsRef = none) ∧
    (wsRun [WSAct.connect, WSAct.openEv 0, WSAct.disconnect,
        WSAct.closeEv 0]).pendingReconnect = true ∧
    (wsStep (wsRun [WSAct.connect, WSAct.openEv 0, WSAct.disconnect,
        WSAct.closeEv 0]) WSAct.timer).socks.length = 2 := by
  refine ⟨by decide, by decide, by decide, ?_, by decide, by decide⟩
  intro st
  exact ⟨rfl, rfl⟩

/-- Claim C5, counterexample: two `connect()` calls in a row with no
intervening close — the second call runs while the first socket is still
CONNECTING, so the OPEN-guard does not stop it; it constructs a second socket
and replaces the handle, and once both sockets' open events fire there are two
open connections, not exactly one, refuting the idempotence claim and the
at-most-one-live-socket invariant. -/
theorem connect_twice_counterexample :
    countOpen (wsRun [WSAct.connect, WSAct.connect, WSAct.openEv 0,
        WSAct.openEv 1]) ≠ 1 ∧
    countOpen (wsRun [WSAct.connect, WSAct.connect, WSAct.openEv 0,
        WSAct.openEv 1]) = 2 := by
  decide

/-- Claim C5 (amended): `connect()` is a no-op whenever the tracked socket is
already OPEN — so connect, open, connect yields exactly one socket and one
open connection; but the guard checks only for the OPEN ready-state, so a
second `connect()` issued while the first socket is still CONNECTING creates
a second socket (a full replace of the handle), and both can end up open. -/
theorem connect_noop_when_open :
    (∀ st : WSSt, refOpen st = true → connectFn st = st) ∧
    countOpen (wsRun [WSAct.connect, WSAct.openEv 0, WSAct.connect]) = 1 ∧
    (wsRun [WSAct.connect, WSAct.openEv 0, WSAct.connect]).socks.length = 1 := by
  refine ⟨?_, by decide, by decide⟩
  intro st h
  simp [connectFn, h]

/-- Witness for C5 (amended): a state tracking one open socket is left
untouched by `connect()`. -/
theorem connect_noop_when_open_witness :
    connectFn ⟨[SockPhase.opened], some 0, false, true, 0⟩
      = ⟨[SockPhase.opened], some 0, false, true, 0⟩ :=
  connect_noop_when_open.1 _ (by decide)

theorem responseEnd_appends_stopped_conditional_witness :
    (handleMessage WSMsg.responseEnd ⟨.thinking, [], "", "", false, false, true⟩).messages
        = [] ++ [⟨Role.assistant, ""⟩] ∧
    (("" : String) = "" →
      (handleMessage (WSMsg.status "stopped")
        ⟨.thinking, [], "", "", false, false, true⟩).messages = []) ∧
    (("" : String) ≠ "" →
      (handleMessage (WSMsg.status "stopped")
        ⟨.thinking, [], "", "", false, false, true⟩).messages
        = [] ++ [⟨Role.assistant, "" ++ " [stopped]"⟩]) :=
  responseEnd_appends_stopped_conditional ⟨.thinking, [], "", "", false, false, true⟩

end VoiceChat
